import Mathlib

/-!
Verification of the Audio-P2P voice-chat core (src/src/main.rs).

The Rust source is shallowly embedded below.  Audio samples are modelled as
exact rationals (the program's f32 arithmetic on the values examined here is
division of small integers whose real value decides every stated comparison
by a margin far wider than any f32 rounding).  Byte buffers are lists of
naturals; machine-integer casts are written with explicit `% 2^w`.
-/

namespace AudioP2P

/-- Embeds `SAMPLE_RATE` (main.rs line 44). -/
def SAMPLE_RATE : Nat := 48000

/-- Embeds `FRAME_MS` (main.rs line 46). -/
def FRAME_MS : Nat := 20

/-- Embeds `FRAME_SAMPLES = SAMPLE_RATE * FRAME_MS / 1000` (main.rs line 47). -/
def FRAME_SAMPLES : Nat := SAMPLE_RATE * FRAME_MS / 1000

/-- Embeds `MAX_PACKET_SIZE` (main.rs line 48). -/
def MAX_PACKET_SIZE : Nat := 400

/-- The jitter ring buffer capacity `FRAME_SAMPLES * 10` (main.rs line 181). -/
def JITTER_CAPACITY : Nat := FRAME_SAMPLES * 10

/-- A raw captured sample, as dispatched by `TypeId` in `sample_to_f32`
(main.rs lines 426-439): the closed set of supported cpal formats. -/
inductive CapturedSample where
  | f32 (v : ℚ)
  | i16 (v : Int)
  | u16 (v : Nat)
deriving Repr, DecidableEq

/-- Embeds `sample_to_f32` (main.rs lines 426-439): i16 divides by
`i16::MAX = 32767`, u16 divides by `u16::MAX = 65535` then rescales to
`[-1, 1]`, f32 passes through unchanged. -/
def sample_to_f32 : CapturedSample → ℚ
  | .f32 s => s
  | .i16 s => (s : ℚ) / 32767
  | .u16 s => (s : ℚ) / 65535 * 2 - 1

/-- Embeds one iteration of the per-sample loop in the `build_input` capture
callback (main.rs lines 249-267): the sample is appended to `frame_buf`; when
the buffer reaches `FRAME_SAMPLES` the frame is handed to the
processing/encode stage and `frame_buf.clear()` runs.  Returns the new
accumulator and the frame handed off, if any. -/
def build_input_step (frame_buf : List ℚ) (s : ℚ) :
    List ℚ × Option (List ℚ) :=
  let buf := frame_buf ++ [s]
  if buf.length = FRAME_SAMPLES then ([], some buf) else (buf, none)

/-- Runs the capture callback body over a chunk of (already normalized)
samples, collecting every frame handed to the processing/encode stage
(main.rs lines 249-268). -/
def build_input_run (frame_buf : List ℚ) : List ℚ → List ℚ × List (List ℚ)
  | [] => (frame_buf, [])
  | s :: rest =>
      let step := build_input_step frame_buf s
      let tail := build_input_run step.1 rest
      (tail.1, step.2.toList ++ tail.2)

/-- Embeds the framing of an encoded packet (main.rs lines 259-261):
`out.put_u16_le(len as u16)` followed by the payload bytes.  The `as u16`
cast is `% 65536`; little-endian u16 bytes are `v % 256` then `v / 256`. -/
def wire_frame (payload : List Nat) : List Nat :=
  (payload.length % 65536) % 256 :: (payload.length % 65536) / 256 :: payload

/-- Embeds the receive-path parser of `network_task` (main.rs lines 349-357)
applied to the `n` bytes returned by `recv`: drop if `n < 2`, decode the
little-endian u16 length `b0 + 256 * b1`, drop if `len + 2 > n`, otherwise
forward `buf[2..2+len]` to the inbound queue. -/
def recv_parse (buf : List Nat) : Option (List Nat) :=
  match buf with
  | b0 :: b1 :: rest =>
      if b0 + 256 * b1 + 2 > rest.length + 2 then none
      else some (rest.take (b0 + 256 * b1))
  | _ => none

/-- The receive path applied to a whole datagram: `recv` reads into a fixed
`[0u8; MAX_PACKET_SIZE + 2]` buffer (main.rs line 340), so a longer datagram
is truncated to the first `MAX_PACKET_SIZE + 2` bytes before parsing. -/
def recv_datagram (d : List Nat) : Option (List Nat) :=
  recv_parse (d.take (MAX_PACKET_SIZE + 2))

/-- Embeds one iteration of the sender task loop in `network_task`
(main.rs lines 327-335): a packet dequeued from the outbound queue is sent
only when `has_peer` (`remote_addr.is_some()`) holds; the accumulator is the
list of datagrams actually transmitted. -/
def send_task_step (has_peer : Bool) (sent : List (List Nat))
    (pkt : List Nat) : List (List Nat) :=
  if has_peer then sent ++ [pkt] else sent

/-- The sender task over the whole sequence of packets dequeued from the
outbound queue during the session (main.rs lines 327-335). -/
def send_task (has_peer : Bool) (pkts : List (List Nat)) : List (List Nat) :=
  pkts.foldl (send_task_step has_peer) []

/-- Embeds `ringbuf::Producer::push` as used by `decode_task`
(main.rs line 406): pushing into a ring buffer holding fewer than `cap`
samples appends at the tail; pushing into a full one fails and leaves the
buffer unchanged (the returned `Result` is discarded by `let _ = ...`).
Never blocks. -/
def rb_push (cap : Nat) (buf : List ℚ) (s : ℚ) : List ℚ :=
  if buf.length < cap then buf ++ [s] else buf

/-- Pushes every decoded sample in order, one at a time
(main.rs lines 405-407). -/
def rb_push_all (cap : Nat) (buf : List ℚ) (xs : List ℚ) : List ℚ :=
  xs.foldl (rb_push cap) buf

/-- Embeds `ringbuf::Consumer::pop().unwrap_or(0.0)` as used by the playback
callback (main.rs line 292): the head sample if one is buffered, silence
`0.0` otherwise.  Never blocks. -/
def rb_pop (buf : List ℚ) : ℚ × List ℚ :=
  match buf with
  | [] => (0, [])
  | x :: xs => (x, xs)

/-- Embeds the `build_output_stream` playback callback (main.rs lines
290-294): every output slot is written with one popped sample (or silence).
Returns the written output buffer and the remaining jitter buffer. -/
def output_callback (slots : Nat) (buf : List ℚ) : List ℚ × List ℚ :=
  match slots with
  | 0 => ([], buf)
  | k + 1 =>
      let p := rb_pop buf
      let rest := output_callback k p.2
      (p.1 :: rest.1, rest.2)

/-- Embeds one iteration of the `decode_task` loop (main.rs lines 400-411):
a payload dequeued from the inbound queue is decoded; on success every
decoded sample is pushed into the jitter ring buffer in order; on failure
the error is printed and the buffer is untouched.  The Opus decoder itself
is external, abstracted as `decode`. -/
def decode_task_step (cap : Nat) (decode : List Nat → Option (List ℚ))
    (buf : List ℚ) (pkt : List Nat) : List ℚ :=
  match decode pkt with
  | some pcm => rb_push_all cap buf pcm
  | none => buf

/-- The decode loop over a sequence of inbound payloads
(main.rs lines 400-411): the loop never exits on a decode error. -/
def decode_task_run (cap : Nat) (decode : List Nat → Option (List ℚ))
    (buf : List ℚ) (pkts : List (List Nat)) : List ℚ :=
  pkts.foldl (decode_task_step cap decode) buf

/-- Which tasks of the pipeline start and whether the process exits fatally
at startup, as a function of startup events. -/
structure StartupOutcome where
  net_send_loop_started : Bool
  net_recv_loop_started : Bool
  capture_stream_started : Bool
  playback_stream_started : Bool
  decode_task_started : Bool
  fatal_exit : Bool
deriving Repr, DecidableEq

/-- Embeds the startup control flow of `main` and `network_task`
(main.rs lines 144-195 and 302-311).  `network_task` is spawned with
`task::spawn` and its `Result` is never awaited or inspected; inside it,
`discover_public(&sock).await?` returns early on STUN failure, before the
send and receive loops are spawned (lines 323-359).  `main` then
unconditionally builds and plays the capture and playback streams
(lines 185-188), spawns the decode task (line 191) and blocks on ctrl-c
(line 194); it never terminates because of a discovery failure. -/
def main_startup (stun_ok : Bool) : StartupOutcome :=
  { net_send_loop_started := stun_ok
    net_recv_loop_started := stun_ok
    capture_stream_started := true
    playback_stream_started := true
    decode_task_started := true
    fatal_exit := false }

/-! ## Helper lemmas -/

lemma FRAME_SAMPLES_eq : FRAME_SAMPLES = 960 := rfl

lemma build_input_step_full (acc : List ℚ) (s : ℚ)
    (h : acc.length + 1 = FRAME_SAMPLES) :
    build_input_step acc s = ([], some (acc ++ [s])) := by
  simp [build_input_step, h]

lemma build_input_step_incomplete (acc : List ℚ) (s : ℚ)
    (h : acc.length + 1 ≠ FRAME_SAMPLES) :
    build_input_step acc s = (acc ++ [s], none) := by
  simp [build_input_step, h]

lemma build_input_run_spec (xs : List ℚ) :
    ∀ acc : List ℚ, acc.length < FRAME_SAMPLES →
      (∀ f ∈ (build_input_run acc xs).2, f.length = FRAME_SAMPLES) ∧
      (build_input_run acc xs).1.length =
        (acc.length + xs.length) % FRAME_SAMPLES ∧
      (build_input_run acc xs).2.length =
        (acc.length + xs.length) / FRAME_SAMPLES := by
  induction xs with
  | nil =>
      intro acc h
      refine ⟨by simp [build_input_run], ?_, ?_⟩
      · simp [build_input_run, Nat.mod_eq_of_lt h]
      · simp [build_input_run, Nat.div_eq_of_lt h]
  | cons s rest ih =>
      intro acc h
      by_cases hfull : acc.length + 1 = FRAME_SAMPLES
      · have hrec := ih [] (by rw [FRAME_SAMPLES_eq]; simp)
        simp only [List.length_nil, Nat.zero_add] at hrec
        have hrun : build_input_run acc (s :: rest) =
            ((build_input_run [] rest).1,
              (acc ++ [s]) :: (build_input_run [] rest).2) := by
          simp [build_input_run, build_input_step_full acc s hfull]
        have e1 : acc.length + (s :: rest).length =
            rest.length + FRAME_SAMPLES := by
          simp only [List.length_cons]; omega
        rw [hrun]
        refine ⟨?_, ?_, ?_⟩
        · intro f hf
          rcases List.mem_cons.mp hf with hf | hf
          · subst hf
            simp only [List.length_append, List.length_singleton]
            omega
          · exact hrec.1 f hf
        · show (build_input_run [] rest).1.length = _
          rw [hrec.2.1, e1, Nat.add_mod_right]
        · show ((acc ++ [s]) :: (build_input_run [] rest).2).length = _
          rw [List.length_cons, hrec.2.2, e1,
            Nat.add_div_right _ (by rw [FRAME_SAMPLES_eq]; omega)]
      · have hlt : (acc ++ [s]).length < FRAME_SAMPLES := by
          simp only [List.length_append, List.length_singleton]
          omega
        have hrec := ih (acc ++ [s]) hlt
        simp only [List.length_append, List.length_singleton] at hrec
        have hrun : build_input_run acc (s :: rest) =
            build_input_run (acc ++ [s]) rest := by
          simp [build_input_run, build_input_step_incomplete acc s hfull]
        have e1 : acc.length + 1 + rest.length =
            acc.length + (s :: rest).length := by
          simp only [List.length_cons]; omega
        rw [hrun]
        refine ⟨hrec.1, ?_, ?_⟩
        · rw [hrec.2.1, e1]
        · rw [hrec.2.2, e1]

lemma rb_push_all_spec (cap : Nat) (xs : List ℚ) :
    ∀ buf : List ℚ, buf.length ≤ cap →
      rb_push_all cap buf xs = buf ++ xs.take (cap - buf.length) := by
  induction xs with
  | nil => intro buf _; simp [rb_push_all]
  | cons x rest ih =>
      intro buf h
      by_cases hlt : buf.length < cap
      · have hx : rb_push cap buf x = buf ++ [x] := by simp [rb_push, hlt]
        have hlen : (buf ++ [x]).length ≤ cap := by
          simp only [List.length_append, List.length_singleton]; omega
        have hrec := ih (buf ++ [x]) hlen
        obtain ⟨m, hm⟩ : ∃ m, cap - buf.length = m + 1 :=
          ⟨cap - buf.length - 1, by omega⟩
        have hm2 : cap - (buf ++ [x]).length = m := by
          simp only [List.length_append, List.length_singleton]; omega
        calc rb_push_all cap buf (x :: rest)
            = rb_push_all cap (buf ++ [x]) rest := by
              simp [rb_push_all, hx]
          _ = (buf ++ [x]) ++ rest.take m := by rw [hrec, hm2]
          _ = buf ++ (x :: rest).take (m + 1) := by simp
          _ = buf ++ (x :: rest).take (cap - buf.length) := by rw [hm]
      · have hcap : buf.length = cap := by omega
        have hx : rb_push cap buf x = buf := by simp [rb_push, hlt]
        have hrec := ih buf h
        calc rb_push_all cap buf (x :: rest)
            = rb_push_all cap buf rest := by simp [rb_push_all, hx]
          _ = buf ++ rest.take (cap - buf.length) := hrec
          _ = buf := by simp [hcap]
          _ = buf ++ (x :: rest).take (cap - buf.length) := by simp [hcap]

/-! ## Claim theorems -/

/-- C1, counterexample.  The claim says a failed STUN probe terminates the
program fatally before any streaming task starts.  In the code `main` spawns
`network_task` without inspecting its result, then unconditionally starts
the capture stream: with a failed probe the capture stream still starts and
the process does not exit. -/
theorem stun_failure_not_fatal_counterexample :
    (main_startup false).capture_stream_started = true ∧
    (main_startup false).playback_stream_started = true ∧
    (main_startup false).fatal_exit = false :=
  ⟨rfl, rfl, rfl⟩

/-- C1, amended.  A failed STUN probe makes `network_task` return early, so
the transport send and receive loops never start; but the process does not
terminate, and the capture, playback and decode tasks all still start.
On a successful probe everything starts. -/
theorem stun_failure_aborts_network_task_only :
    main_startup false =
      { net_send_loop_started := false
        net_recv_loop_started := false
        capture_stream_started := true
        playback_stream_started := true
        decode_task_started := true
        fatal_exit := false } ∧
    main_startup true =
      { net_send_loop_started := true
        net_recv_loop_started := true
        capture_stream_started := true
        playback_stream_started := true
        decode_task_started := true
        fatal_exit := false } :=
  ⟨rfl, rfl⟩

/-- C2, counterexample.  The normalization does not map the i16 minimum to
-1.0: `sample_to_f32` divides by `i16::MAX = 32767`, so the minimum
`-32768` maps to `-32768/32767 < -1`, outside `[-1, 1]`. -/
theorem sample_to_f32_i16_min_counterexample :
    sample_to_f32 (.i16 (-32768)) < -1 ∧
    sample_to_f32 (.i16 (-32768)) ≠ -1 := by
  constructor <;> norm_num [sample_to_f32]

/-- C2, amended.  The i16 maximum maps to exactly 1.0 but the i16 minimum
maps to `-(32768/32767)`, slightly below -1; the u16 minimum and maximum map
to exactly -1.0 and 1.0; f32 samples pass through unchanged.  Every
normalized i16 sample lies in `[-(32768/32767), 1]` and every normalized u16
sample lies in `[-1, 1]`. -/
theorem sample_to_f32_bounds (si : Int) (su : Nat) (sf : ℚ)
    (hi1 : -32768 ≤ si) (hi2 : si ≤ 32767) (hu : su ≤ 65535) :
    sample_to_f32 (.i16 32767) = 1 ∧
    sample_to_f32 (.i16 (-32768)) = -(32768 / 32767) ∧
    sample_to_f32 (.u16 0) = -1 ∧
    sample_to_f32 (.u16 65535) = 1 ∧
    sample_to_f32 (.f32 sf) = sf ∧
    -(32768 / 32767) ≤ sample_to_f32 (.i16 si) ∧
    sample_to_f32 (.i16 si) ≤ 1 ∧
    -1 ≤ sample_to_f32 (.u16 su) ∧
    sample_to_f32 (.u16 su) ≤ 1 := by
  have h32 : (0 : ℚ) < 32767 := by norm_num
  have hcast2 : (si : ℚ) ≤ 32767 := by exact_mod_cast hi2
  have hcast1 : (-32768 : ℚ) ≤ (si : ℚ) := by exact_mod_cast hi1
  have hucast : (su : ℚ) ≤ 65535 := by exact_mod_cast hu
  have hu0 : (0 : ℚ) ≤ (su : ℚ) := by positivity
  refine ⟨by norm_num [sample_to_f32], by norm_num [sample_to_f32],
    by norm_num [sample_to_f32], by norm_num [sample_to_f32], rfl,
    ?_, ?_, ?_, ?_⟩
  · show -(32768 / 32767) ≤ (si : ℚ) / 32767
    have : (-32768 : ℚ) / 32767 ≤ (si : ℚ) / 32767 := by
      gcongr
    linarith
  · show (si : ℚ) / 32767 ≤ 1
    exact (div_le_one h32).mpr hcast2
  · show -1 ≤ (su : ℚ) / 65535 * 2 - 1
    have : (0 : ℚ) ≤ (su : ℚ) / 65535 := by positivity
    linarith
  · show (su : ℚ) / 65535 * 2 - 1 ≤ 1
    have : (su : ℚ) / 65535 ≤ 1 := (div_le_one (by norm_num)).mpr hucast
    linarith

/-- C2, witness for `sample_to_f32_bounds` at the extreme concrete inputs. -/
theorem sample_to_f32_bounds_witness :
    -1 ≤ sample_to_f32 (.u16 65535) ∧ sample_to_f32 (.i16 (-32768)) ≤ 1 := by
  have h := sample_to_f32_bounds (-32768) 65535 0 (by norm_num) (by norm_num)
    (by norm_num)
  exact ⟨h.2.2.2.2.2.2.2.1, h.2.2.2.2.2.2.1⟩

/-- C7.  On every playback callback each output slot is written with one
sample popped from the jitter buffer; popping from an empty buffer yields
the silence value 0 and the callback is a total function (never blocks or
errors), so the output always has exactly the requested length: the first
samples of the buffer followed by silence for the shortfall. -/
theorem output_callback_fills_every_slot (k : Nat) (buf : List ℚ) :
    (output_callback k buf).1 =
      buf.take k ++ List.replicate (k - buf.length) 0 ∧
    (output_callback k buf).1.length = k ∧
    (output_callback k buf).2 = buf.drop k ∧
    rb_pop ([] : List ℚ) = (0, []) := by
  have main : ∀ (n : Nat) (b : List ℚ),
      (output_callback n b).1 =
        b.take n ++ List.replicate (n - b.length) 0 ∧
      (output_callback n b).2 = b.drop n := by
    intro n
    induction n with
    | zero => intro b; simp [output_callback]
    | succ m ih =>
        intro b
        match b with
        | [] =>
            have h := ih []
            simp only [output_callback, rb_pop] at *
            refine ⟨?_, by simpa using h.2⟩
            rw [h.1]
            simp [List.replicate_succ]
        | x :: xs =>
            have h := ih xs
            simp only [output_callback, rb_pop] at *
            refine ⟨?_, h.2⟩
            rw [h.1]
            simp only [List.take_succ_cons, List.length_cons,
              Nat.succ_sub_succ, List.cons_append]
  have h := main k buf
  refine ⟨h.1, ?_, h.2, rfl⟩
  rw [h.1]
  simp only [List.length_append, List.length_take, List.length_replicate]
  omega

/-- C3.  A frame is handed to the processing/encode stage if and only if
exactly `FRAME_SAMPLES = 960` samples have accumulated since the last
handoff: over any capture run the number of handed-off frames is the number
of completed 960-sample groups and the accumulator keeps the remainder
(so fewer than 960 accumulated samples never trigger a handoff), every
handed-off frame has exactly 960 samples, the 960th accumulated sample
always triggers the handoff, and the accumulator is cleared by it. -/
theorem frame_handoff_iff_960 (xs acc : List ℚ) (s : ℚ) :
    (∀ f ∈ (build_input_run [] xs).2, f.length = FRAME_SAMPLES) ∧
    (build_input_run [] xs).2.length = xs.length / FRAME_SAMPLES ∧
    (build_input_run [] xs).1.length = xs.length % FRAME_SAMPLES ∧
    ((build_input_step acc s).2.isSome ↔
      acc.length + 1 = FRAME_SAMPLES) ∧
    (acc.length + 1 = FRAME_SAMPLES →
      build_input_step acc s = ([], some (acc ++ [s])) ∧
      (acc ++ [s]).length = FRAME_SAMPLES) ∧
    FRAME_SAMPLES = 960 := by
  have hrun := build_input_run_spec xs [] (by rw [FRAME_SAMPLES_eq]; simp)
  simp only [List.length_nil, Nat.zero_add] at hrun
  refine ⟨hrun.1, hrun.2.2, hrun.2.1, ?_, ?_, FRAME_SAMPLES_eq⟩
  · constructor
    · intro hsome
      by_contra hne
      rw [build_input_step_incomplete acc s hne] at hsome
      simp at hsome
    · intro heq
      rw [build_input_step_full acc s heq]
      rfl
  · intro heq
    refine ⟨build_input_step_full acc s heq, ?_⟩
    simp only [List.length_append, List.length_singleton]
    omega

/-- C3, witness for `frame_handoff_iff_960`: with 959 samples accumulated
the next sample triggers a handoff of exactly the accumulated frame and
clears the accumulator. -/
theorem frame_handoff_iff_960_witness :
    build_input_step (List.replicate 959 (0 : ℚ)) 0 =
      ([], some (List.replicate 959 (0 : ℚ) ++ [0])) := by
  have h := frame_handoff_iff_960 [] (List.replicate 959 (0 : ℚ)) 0
  exact (h.2.2.2.2.1
    (by rw [List.length_replicate, FRAME_SAMPLES_eq])).1

/-- C4.  Wire-format round trip: framing any payload of length at most
`MAX_PACKET_SIZE = 400` as a little-endian u16 length followed by the
payload bytes, then parsing the resulting datagram with the receive-path
parser, reproduces exactly the original payload; the framed message carries
exactly the payload length plus the 2-byte header. -/
theorem wire_roundtrip (payload : List Nat)
    (h : payload.length ≤ MAX_PACKET_SIZE) :
    recv_datagram (wire_frame payload) = some payload ∧
    recv_parse (wire_frame payload) = some payload ∧
    (wire_frame payload).length = payload.length + 2 := by
  have hM : MAX_PACKET_SIZE = 400 := rfl
  have hmod : payload.length % 65536 = payload.length :=
    Nat.mod_eq_of_lt (by omega)
  have hlen : payload.length % 256 + 256 * (payload.length / 256) =
      payload.length := Nat.mod_add_div payload.length 256
  have hparse : recv_parse (wire_frame payload) = some payload := by
    simp only [wire_frame, hmod, recv_parse, hlen]
    rw [if_neg (by omega)]
    rw [List.take_length]
  have hflen : (wire_frame payload).length = payload.length + 2 := by
    simp [wire_frame]
  refine ⟨?_, hparse, hflen⟩
  unfold recv_datagram
  rw [List.take_of_length_le (by omega), hparse]

/-- C4, witness for `wire_roundtrip` at a concrete 3-byte payload. -/
theorem wire_roundtrip_witness :
    recv_datagram (wire_frame [1, 2, 3]) = some [1, 2, 3] :=
  (wire_roundtrip [1, 2, 3] (by decide)).1

set_option maxRecDepth 10000 in
/-- C5, counterexample.  The claim says every datagram exceeding the maximum
expected payload is rejected.  In the code an oversized datagram is merely
truncated by `recv` to the 402-byte buffer; if its declared length fits the
truncated bytes it is accepted: a 403-byte datagram (401 payload bytes,
exceeding `MAX_PACKET_SIZE = 400`) declaring length 0 is forwarded as an
empty payload, not dropped. -/
theorem oversized_datagram_accepted_counterexample :
    (0 :: 0 :: List.replicate 401 0 : List Nat).length >
      MAX_PACKET_SIZE + 2 ∧
    recv_datagram (0 :: 0 :: List.replicate 401 0) = some [] := by
  constructor
  · decide
  · decide

/-- C5, amended.  The receive path silently drops every datagram of fewer
than 2 bytes and every datagram whose declared u16 length exceeds the bytes
actually received after the header; since `recv` truncates to a
`MAX_PACKET_SIZE + 2`-byte buffer, any declared length above
`MAX_PACKET_SIZE` is likewise dropped; and an accepted datagram always
yields the complete declared-length payload, never a partial one.  However
a datagram physically longer than the maximum message is not rejected for
its size alone: only the declared-length/received-bytes relationship
decides. -/
theorem recv_reject_policy (d : List Nat) :
    (d.length < 2 → recv_datagram d = none) ∧
    (∀ b0 b1 rest, d.take (MAX_PACKET_SIZE + 2) = b0 :: b1 :: rest →
      rest.length < b0 + 256 * b1 → recv_datagram d = none) ∧
    (∀ b0 b1 rest, d.take (MAX_PACKET_SIZE + 2) = b0 :: b1 :: rest →
      MAX_PACKET_SIZE < b0 + 256 * b1 → recv_datagram d = none) ∧
    (∀ p, recv_datagram d = some p →
      ∃ b0 b1 rest, d.take (MAX_PACKET_SIZE + 2) = b0 :: b1 :: rest ∧
        b0 + 256 * b1 ≤ rest.length ∧
        p = rest.take (b0 + 256 * b1) ∧
        p.length = b0 + 256 * b1) := by
  have hM : MAX_PACKET_SIZE = 400 := rfl
  refine ⟨?_, ?_, ?_, ?_⟩
  · intro hshort
    unfold recv_datagram
    rw [List.take_of_length_le (by omega)]
    match d, hshort with
    | [], _ => rfl
    | [x], _ => rfl
  · intro b0 b1 rest htake hlt
    unfold recv_datagram
    rw [htake]
    simp only [recv_parse]
    rw [if_pos (by omega)]
  · intro b0 b1 rest htake hbig
    have hrestlen : rest.length + 2 ≤ MAX_PACKET_SIZE + 2 := by
      have := List.length_take_le (MAX_PACKET_SIZE + 2) d
      rw [htake] at this
      simpa using this
    unfold recv_datagram
    rw [htake]
    simp only [recv_parse]
    rw [if_pos (by omega)]
  · intro p hp
    unfold recv_datagram at hp
    match htake : d.take (MAX_PACKET_SIZE + 2) with
    | [] => rw [htake] at hp; exact absurd hp (by simp [recv_parse])
    | [x] => rw [htake] at hp; exact absurd hp (by simp [recv_parse])
    | b0 :: b1 :: rest =>
        rw [htake] at hp
        simp only [recv_parse] at hp
        by_cases hcond : b0 + 256 * b1 + 2 > rest.length + 2
        · rw [if_pos hcond] at hp
          exact absurd hp (by simp)
        · rw [if_neg hcond] at hp
          have hpe : rest.take (b0 + 256 * b1) = p := Option.some.inj hp
          have hle : b0 + 256 * b1 ≤ rest.length := by omega
          refine ⟨b0, b1, rest, rfl, hle, hpe.symm, ?_⟩
          rw [← hpe, List.length_take]
          omega

/-- C5, witness for `recv_reject_policy`: a 1-byte datagram is dropped. -/
theorem recv_reject_policy_witness :
    recv_datagram [7] = none :=
  (recv_reject_policy [7]).1 (by decide)

/-- C6.  The jitter ring buffer never exceeds its capacity of
`JITTER_CAPACITY = 10 * FRAME_SAMPLES = 9600` samples: pushing a sequence of
decoded samples into a buffer holding at most `cap` samples keeps, unchanged
and in order, the samples already present, appends only until the buffer is
full, and drops the newest excess; the push is a total function (never
blocks). -/
theorem jitter_push_drops_newest (cap : Nat) (buf xs : List ℚ)
    (h : buf.length ≤ cap) :
    rb_push_all cap buf xs = buf ++ xs.take (cap - buf.length) ∧
    (rb_push_all cap buf xs).length ≤ cap ∧
    JITTER_CAPACITY = FRAME_SAMPLES * 10 ∧
    JITTER_CAPACITY = 9600 := by
  have hspec := rb_push_all_spec cap xs buf h
  refine ⟨hspec, ?_, rfl, rfl⟩
  rw [hspec]
  simp only [List.length_append, List.length_take]
  omega

/-- C6, witness for `jitter_push_drops_newest`: with capacity 4, pushing
1,2,3,4,5 into an empty buffer leaves exactly 1,2,3,4. -/
theorem jitter_push_drops_newest_witness :
    rb_push_all 4 ([] : List ℚ) [1, 2, 3, 4, 5] = [1, 2, 3, 4] := by
  have h := (jitter_push_drops_newest 4 [] [1, 2, 3, 4, 5] (by simp)).1
  simpa using h

/-- C9.  A failed decode leaves the jitter buffer completely unchanged for
that cycle — no sample pushed, none removed or modified — and does not
terminate the decode loop: the remaining inbound payloads are still
processed exactly as if the failing one had not occurred. -/
theorem decode_failure_atomic (cap : Nat)
    (decode : List Nat → Option (List ℚ)) (buf : List ℚ) (pkt : List Nat)
    (pkts1 pkts2 : List (List Nat)) (h : decode pkt = none) :
    decode_task_step cap decode buf pkt = buf ∧
    decode_task_run cap decode buf (pkts1 ++ pkt :: pkts2) =
      decode_task_run cap decode
        (decode_task_run cap decode buf pkts1) pkts2 := by
  refine ⟨by simp [decode_task_step, h], ?_⟩
  unfold decode_task_run
  rw [List.foldl_append, List.foldl_cons]
  have hstep : decode_task_step cap decode
      (pkts1.foldl (decode_task_step cap decode) buf) pkt =
      pkts1.foldl (decode_task_step cap decode) buf := by
    simp [decode_task_step, h]
  rw [hstep]

/-- C9, witness for `decode_failure_atomic` with an always-failing decoder
and a concrete one-sample buffer. -/
theorem decode_failure_atomic_witness :
    decode_task_step 4 (fun _ => none) [1] [9] = [1] :=
  (decode_failure_atomic 4 (fun _ => none) [1] [9] [] [] rfl).1

/-- C10.  Every received datagram of at least 2 bytes whose declared
little-endian u16 length fits the bytes actually received is accepted: the
parser forwards exactly the first `len` bytes after the header to the
inbound queue, ignoring any trailing bytes, and the same holds for the whole
datagram path through the fixed receive buffer. -/
theorem recv_accept_with_trailing (b0 b1 : Nat) (rest : List Nat)
    (hb0 : b0 < 256) (hb1 : b1 < 256)
    (hrecv : rest.length + 2 ≤ MAX_PACKET_SIZE + 2)
    (hlen : b0 + 256 * b1 + 2 ≤ rest.length + 2) :
    recv_parse (b0 :: b1 :: rest) = some (rest.take (b0 + 256 * b1)) ∧
    (rest.take (b0 + 256 * b1)).length = b0 + 256 * b1 ∧
    recv_datagram (b0 :: b1 :: rest) =
      some (rest.take (b0 + 256 * b1)) := by
  have hparse : recv_parse (b0 :: b1 :: rest) =
      some (rest.take (b0 + 256 * b1)) := by
    simp only [recv_parse]
    rw [if_neg (by omega)]
  refine ⟨hparse, ?_, ?_⟩
  · rw [List.length_take]
    omega
  · unfold recv_datagram
    rw [List.take_of_length_le (by simp; omega), hparse]

/-- C10, witness for `recv_accept_with_trailing`: declared length 1 with two
trailing bytes forwards exactly the first byte after the header; the edge
case of declared length 0 forwards the empty payload. -/
theorem recv_accept_with_trailing_witness :
    recv_parse [1, 0, 7, 8, 9] = some [7] ∧
    recv_parse [0, 0, 5, 6] = some [] := by
  constructor
  · have h := (recv_accept_with_trailing 1 0 [7, 8, 9] (by decide)
      (by decide) (by decide) (by decide)).1
    simpa using h
  · have h := (recv_accept_with_trailing 0 0 [5, 6] (by decide)
      (by decide) (by decide) (by decide)).1
    simpa using h

/-- C8.  In listening mode (no peer address supplied) the sender loop
dequeues packets but never sends: the list of transmitted datagrams is empty
for every sequence of dequeued packets, over the whole session. -/
theorem listen_mode_never_transmits (pkts : List (List Nat)) :
    send_task false pkts = [] := by
  have h : ∀ acc : List (List Nat),
      pkts.foldl (send_task_step false) acc = acc := by
    induction pkts with
    | nil => intro acc; rfl
    | cons p ps ih =>
        intro acc
        simpa [send_task_step] using ih acc
  exact h []

end AudioP2P
